import Mathlib

/-
Verification of the DWA local planner of openrr-nav.

The planner source is `src/grid_map/src/dwa_planner.rs`.  Its numeric type
`f64` is modelled by the exact rationals `ℚ`; the sentinel `f64::MAX` is the
exact rational `(2^53 - 1) * 2^971`.  Poses (`na::Isometry2<f64>`) are
modelled as a translation together with the unit-complex rotation components
(cos, sin); the transcendental map from an angle to its (cos, sin) pair, as
computed by the float library, is passed around explicitly as a function
`trig : ℚ → ℚ × ℚ`, so that every definition stays executable.  The grid-map
crate itself (types `Cell`, `GridMap`, `LayeredGridMap`, `Position`) is not
part of the sources of this repository; those definitions are modelled from
the specification, as marked on each of them.
-/

namespace OpenrrNav

attribute [local semireducible] Rat.add Rat.sub Rat.mul Rat.inv Rat.ofScientific

/-- The exact rational value of `f64::MAX = (2^53 - 1) * 2^971`, the sentinel
the planner uses for an infinite cost (written as a literal so that concrete
evaluation reduces; `fMAX_eq_pow` below ties it to the power form). -/
def fMAX : ℚ := (179769313486231570814527423731704356798070567525844996598917476803157260780028538760589558632766878171540458953514382464234321326889464182768467546703537516986049910576551282076245490090389328944075868508455133942304583236903222948165808559332123348274797826204144723168738177180919299881250404026184124858368 : ℕ)

/-- Modelled from the spec: `Position` of the grid_map crate (not under
`src/`) — a continuous world coordinate (x, y) in meters. -/
structure Position where
  x : ℚ
  y : ℚ
deriving DecidableEq

/-- Modelled from the spec: `Cell<T>` of the grid_map crate (not under
`src/`) — tagged value `Uninitialized | Obstacle | Value(T)`, instantiated at
`T = u8` (values carried as naturals). -/
inductive Cell where
  | uninitialized
  | obstacle
  | value (v : ℕ)
deriving DecidableEq

/-- Modelled from the spec: `GridMap<u8>` of the grid_map crate (not under
`src/`) — a uniform raster over `[min_point, max_point)` with row-major
cells; `width = ⌈(max.x - min.x)/resolution⌉`. -/
structure GridMap where
  min_point : Position
  max_point : Position
  resolution : ℚ
  cells : List Cell
deriving DecidableEq

/-- Modelled from the spec: derived cell count along x. -/
def GridMap.width (m : GridMap) : ℕ :=
  (((m.max_point.x - m.min_point.x) / m.resolution).ceil).toNat

/-- Modelled from the spec: position → (col, row); floors toward −∞ after
subtracting `min_point`; `None` when the position is outside
`[min_point, max_point)` (a point exactly on `max_point` is out of bounds). -/
def GridMap.position_to_indices (m : GridMap) (p : Position) : Option (ℕ × ℕ) :=
  if m.min_point.x ≤ p.x ∧ p.x < m.max_point.x ∧
      m.min_point.y ≤ p.y ∧ p.y < m.max_point.y then
    some ((((p.x - m.min_point.x) / m.resolution).floor).toNat,
          (((p.y - m.min_point.y) / m.resolution).floor).toNat)
  else
    none

/-- Modelled from the spec: cell lookup by world position; `None` out of
bounds, otherwise the row-major cell at `row · width + col`. -/
def GridMap.cell_by_position (m : GridMap) (p : Position) : Option Cell :=
  match m.position_to_indices p with
  | some (col, row) => m.cells.get? (row * m.width + col)
  | none => none

/-- Modelled from the spec: `LayeredGridMap<u8>` of the grid_map crate (not
under `src/`) — a named collection of grid maps. -/
structure LayeredGridMap where
  maps : List (String × GridMap)
deriving DecidableEq

/-- Modelled from the spec: layer lookup by name. -/
def LayeredGridMap.layer (l : LayeredGridMap) (name : String) : Option GridMap :=
  l.maps.lookup name

/-- `Velocity` from dwa_planner.rs: linear x and angular theta. -/
structure Velocity where
  x : ℚ
  theta : ℚ
deriving DecidableEq

/-- `Acceleration` from dwa_planner.rs. -/
structure Acceleration where
  x : ℚ
  theta : ℚ
deriving DecidableEq

/-- `Pose = na::Isometry2<f64>`: translation (x, y) and rotation stored as
the unit-complex pair (rc, rs) = (cos θ, sin θ). -/
structure Pose where
  x : ℚ
  y : ℚ
  rc : ℚ
  rs : ℚ
deriving DecidableEq

/-- Isometry composition `a * b` of nalgebra: rotate-then-translate. -/
def Pose.comp (a b : Pose) : Pose :=
  { x := a.x + a.rc * b.x - a.rs * b.y
    y := a.y + a.rs * b.x + a.rc * b.y
    rc := a.rc * b.rc - a.rs * b.rs
    rs := a.rs * b.rc + a.rc * b.rs }

/-- The (x, y) translation part of a pose, as a grid position
(`Position::new(p.translation.x, p.translation.y)` in the source). -/
def Pose.toPosition (p : Pose) : Position := ⟨p.x, p.y⟩

/-- `velocity_to_pose` from dwa_planner.rs:
`Pose::new(Vector2::new(velocity.x * dt, 0.0), velocity.theta * dt)`.
`trig` supplies the (cos, sin) of the rotation angle. -/
def velocity_to_pose (trig : ℚ → ℚ × ℚ) (velocity : Velocity) (dt : ℚ) : Pose :=
  { x := velocity.x * dt
    y := 0
    rc := (trig (velocity.theta * dt)).1
    rs := (trig (velocity.theta * dt)).2 }

/-- `Plan` from dwa_planner.rs. -/
structure Plan where
  velocity : Velocity
  cost : ℚ
  path : List Pose
deriving DecidableEq

/-- `Plan::default()`: zero velocity, zero cost, empty path. -/
def Plan.default : Plan := { velocity := ⟨0, 0⟩, cost := 0, path := [] }

/-- `Limits` from dwa_planner.rs. -/
structure Limits where
  max_velocity : Velocity
  max_accel : Acceleration
  min_velocity : Velocity
  min_accel : Acceleration
deriving DecidableEq

/-- `DwaPlanner` from dwa_planner.rs.  `map_name_weight` is kept as an
association list (the source iterates a `HashMap` in its per-instance order);
`num_vel_sample` is kept as a natural (the source `i32` is only ever used as
the nonnegative loop bound `0..(n+1)` and divisor). -/
structure DwaPlanner where
  limits : Limits
  map_name_weight : List (String × ℚ)
  controller_dt : ℚ
  simulation_duration : ℚ
  num_vel_sample : ℕ
deriving DecidableEq

/-- Loop of `accumulate_values_by_positions`, with the running `cost`
accumulator explicit: a cell that is not `Value` — or an out-of-bounds
position — returns `f64::MAX` immediately. -/
def accumulateFrom (map : GridMap) (acc : ℚ) : List Position → ℚ
  | [] => acc
  | p :: rest =>
    match map.cell_by_position p with
    | some (Cell.value v) => accumulateFrom map (acc + (v : ℚ)) rest
    | _ => fMAX

/-- `accumulate_values_by_positions` from dwa_planner.rs. -/
def accumulate_values_by_positions (map : GridMap) (positions : List Position) : ℚ :=
  accumulateFrom map 0 positions

/-- Rust `f64::clamp(lo, hi)`: `if v < lo { lo } else if v > hi { hi } else
{ v }`. -/
def rustClamp (v lo hi : ℚ) : ℚ :=
  if v < lo then lo else if hi < v then hi else v

/-- `DwaPlanner::sample_velocity` from dwa_planner.rs: clamp the one-step
acceleration reach into the velocity box, lay an (N+1)×(N+1) grid over it,
and after each row of the grid push one zero-linear-velocity sample. -/
def DwaPlanner.sample_velocity (self : DwaPlanner) (current_velocity : Velocity) :
    List Velocity :=
  let max_x_limit := rustClamp
    (current_velocity.x + self.limits.max_accel.x * self.controller_dt)
    self.limits.min_velocity.x self.limits.max_velocity.x
  let min_x_limit := rustClamp
    (current_velocity.x + self.limits.min_accel.x * self.controller_dt)
    self.limits.min_velocity.x self.limits.max_velocity.x
  let max_theta_limit := rustClamp
    (current_velocity.theta + self.limits.max_accel.theta * self.controller_dt)
    self.limits.min_velocity.theta self.limits.max_velocity.theta
  let min_theta_limit := rustClamp
    (current_velocity.theta + self.limits.min_accel.theta * self.controller_dt)
    self.limits.min_velocity.theta self.limits.max_velocity.theta
  let d_vel_x := (max_x_limit - min_x_limit) / (self.num_vel_sample : ℚ)
  let d_vel_theta := (max_theta_limit - min_theta_limit) / (self.num_vel_sample : ℚ)
  (List.range (self.num_vel_sample + 1)).flatMap fun (i : ℕ) =>
    ((List.range (self.num_vel_sample + 1)).map fun (j : ℕ) =>
      Velocity.mk (min_x_limit + d_vel_x * (j : ℚ))
        (min_theta_limit + d_vel_theta * (i : ℚ))) ++
    [Velocity.mk 0 (min_theta_limit + d_vel_theta * (i : ℚ))]

/-- The rollout loop of `forward_simulation`: push `n` successive
compositions with `diff`, starting from (but not including) `last`. -/
def rollout (diff : Pose) : ℕ → Pose → List Pose
  | 0, _ => []
  | n + 1, last => (last.comp diff) :: rollout diff n (last.comp diff)

/-- `DwaPlanner::forward_simulation` from dwa_planner.rs.  The Rust loop
bound `(simulation_duration / controller_dt) as usize` is the truncation of
the quotient, which for `controller_dt > 0` (spec §4.4 invariant) equals
`⌊simulation_duration / controller_dt⌋` saturated at 0 from below. -/
def DwaPlanner.forward_simulation (self : DwaPlanner) (trig : ℚ → ℚ × ℚ)
    (current_pose : Pose) (target_velocity : Velocity) : List Pose :=
  rollout (velocity_to_pose trig target_velocity self.controller_dt)
    ((self.simulation_duration / self.controller_dt).floor).toNat current_pose

/-- The candidate `plans` vector built at the top of `plan_local_path`: one
plan per sampled velocity, cost 0, path from `forward_simulation`. -/
def DwaPlanner.candidatePlans (self : DwaPlanner) (trig : ℚ → ℚ × ℚ)
    (current_pose : Pose) (current_velocity : Velocity) : List Plan :=
  (self.sample_velocity current_velocity).map fun v =>
    { velocity := v, cost := 0, path := self.forward_simulation trig current_pose v }

/-- Placeholder map for the `unwrap()` on a missing layer, which panics in
the source; every theorem about `plan_local_path` whose conclusion depends on
a layer hypothesises that the layer is present, so this default is never
reached there. -/
def emptyGridMap : GridMap :=
  { min_point := ⟨0, 0⟩, max_point := ⟨0, 0⟩, resolution := 1, cells := [] }

/-- The `all_layer_cost` accumulation of `plan_local_path`: over the weighted
layers, add weight times the accumulated cell values along the plan's path
positions. -/
def DwaPlanner.totalCost (self : DwaPlanner) (maps : LayeredGridMap) (plan : Plan) : ℚ :=
  self.map_name_weight.foldl
    (fun acc nw =>
      acc + nw.2 * accumulate_values_by_positions ((maps.layer nw.1).getD emptyGridMap)
        (plan.path.map Pose.toPosition)) 0

/-- The selection loop of `plan_local_path`: running `min_cost` and
`selected_plan`, updated on strict improvement. -/
def selectLoop (f : Plan → ℚ) : List Plan → ℚ → Plan → ℚ × Plan
  | [], m, s => (m, s)
  | p :: rest, m, s =>
    if f p < m then selectLoop f rest (f p) p else selectLoop f rest m s

/-- `DwaPlanner::plan_local_path` from dwa_planner.rs: build the candidate
plans, run the strict-improvement selection loop from
`(f64::MAX, Plan::default())`, and return the selected plan with its cost
field overwritten by the final `min_cost`. -/
def DwaPlanner.plan_local_path (self : DwaPlanner) (trig : ℚ → ℚ × ℚ)
    (current_pose : Pose) (current_velocity : Velocity) (maps : LayeredGridMap) : Plan :=
  let plans := self.candidatePlans trig current_pose current_velocity
  let ms := selectLoop (self.totalCost maps) plans fMAX Plan.default
  { ms.2 with cost := ms.1 }

/-- A position is disqualifying for a layer when its cell lookup does not
yield a stored value: out of bounds, `Uninitialized`, or `Obstacle`. -/
def isDisqualifying (map : GridMap) (p : Position) : Bool :=
  match map.cell_by_position p with
  | some (Cell.value _) => false
  | _ => true

/-- The stored value at a position, 0 when there is none (only used under
the hypothesis that every position carries a value). -/
def valueAt (map : GridMap) (p : Position) : ℚ :=
  match map.cell_by_position p with
  | some (Cell.value v) => (v : ℚ)
  | _ => 0

/-- A cell that could live in a `GridMap<u8>`: any stored value fits in a
`u8`. -/
def cellIsU8 : Cell → Bool
  | Cell.value v => decide (v ≤ 255)
  | _ => true

/-- The planner with every layer weight doubled. -/
def doubleWeights (self : DwaPlanner) : DwaPlanner :=
  { self with map_name_weight := self.map_name_weight.map fun nw => (nw.1, 2 * nw.2) }

/-- `k` successive compositions of `diff` onto `start` (so `poseIter start
diff k = start ∘ diff^k`), the closed form of the rollout recurrence. -/
def poseIter (start diff : Pose) : ℕ → Pose
  | 0 => start
  | k + 1 => (poseIter start diff k).comp diff

/-- Trig table used by the concrete scenarios below; every scenario only
rotates by angle 0, where `(cos, sin) = (1, 0)` exactly, also in `f64`. -/
def trigZero : ℚ → ℚ × ℚ := fun _ => (1, 0)

/-- A valid 1 m × 1 m map of one `Uninitialized` cell. -/
def mapA : GridMap :=
  { min_point := ⟨0, 0⟩, max_point := ⟨1, 1⟩, resolution := 1,
    cells := [Cell.uninitialized] }

/-- Layered map with the single layer "a" = `mapA`. -/
def mapsA : LayeredGridMap := ⟨[("a", mapA)]⟩

/-- A 2 m × 2 m map whose four cells are all `Obstacle`. -/
def mapObs : GridMap :=
  { min_point := ⟨0, 0⟩, max_point := ⟨2, 2⟩, resolution := 1,
    cells := [Cell.obstacle, Cell.obstacle, Cell.obstacle, Cell.obstacle] }

/-- Layered map with the single layer "a" = `mapObs`. -/
def mapsObs : LayeredGridMap := ⟨[("a", mapObs)]⟩

/-- A 2 m × 2 m map with one `Obstacle` at (col 1, row 0) and free
zero-valued cells elsewhere. -/
def mapFreeObs : GridMap :=
  { min_point := ⟨0, 0⟩, max_point := ⟨2, 2⟩, resolution := 1,
    cells := [Cell.value 0, Cell.obstacle, Cell.value 0, Cell.value 0] }

/-- Layered map with the single layer "a" = `mapFreeObs`. -/
def mapsFreeObs : LayeredGridMap := ⟨[("a", mapFreeObs)]⟩

/-- Limits pinning the linear velocity to exactly 1 and the angular velocity
to exactly 0 (min = max on both axes, zero accelerations). -/
def limitsPinned : Limits :=
  { max_velocity := ⟨1, 0⟩, max_accel := ⟨0, 0⟩,
    min_velocity := ⟨1, 0⟩, min_accel := ⟨0, 0⟩ }

/-- Planner with the pinned limits, one layer "a" of weight 1, dt = 1 s,
horizon 1 s, N = 1. -/
def plannerOne : DwaPlanner :=
  { limits := limitsPinned, map_name_weight := [("a", 1)], controller_dt := 1,
    simulation_duration := 1, num_vel_sample := 1 }

/-- Same planner but with layer weight 1/2 (a representable `f64` value, and
`0.5 * f64::MAX` is exact in `f64`). -/
def plannerHalf : DwaPlanner :=
  { limits := limitsPinned, map_name_weight := [("a", 1/2)], controller_dt := 1,
    simulation_duration := 1, num_vel_sample := 1 }

/-- Planner with no weighted layers, dt = 1 s, horizon 3 s. -/
def plannerSim : DwaPlanner :=
  { limits := limitsPinned, map_name_weight := [], controller_dt := 1,
    simulation_duration := 3, num_vel_sample := 1 }

/-- A pose far outside the 1 m × 1 m map `mapA`. -/
def poseFar : Pose := ⟨10, 10, 1, 0⟩

/-- A pose in the middle of cell (0, 0) of the 2 m × 2 m maps. -/
def poseMid : Pose := ⟨1/2, 1/2, 1, 0⟩

/-- Current velocity (x = 1, theta = 0), matching the pinned limits. -/
def v0A : Velocity := ⟨1, 0⟩

/-- The literal `fMAX` is `(2^53 - 1) * 2^971`. -/
theorem fMAX_eq_pow : fMAX = ((2 : ℚ) ^ 53 - 1) * 2 ^ 971 := by
  norm_num [fMAX]

/-- The infinite-cost sentinel is positive. -/
theorem fMAX_pos : 0 < fMAX := by decide

/-- A clamped value stays inside a nonempty clamp interval. -/
theorem rustClamp_mem (v lo hi : ℚ) (h : lo ≤ hi) :
    lo ≤ rustClamp v lo hi ∧ rustClamp v lo hi ≤ hi := by
  rw [rustClamp]
  split_ifs with h1 h2 <;> constructor <;> linarith

/-- Clamping into a nonempty interval is monotone in the clamped value. -/
theorem rustClamp_mono (a b lo hi : ℚ) (h : lo ≤ hi) (hab : a ≤ b) :
    rustClamp a lo hi ≤ rustClamp b lo hi := by
  rw [rustClamp, rustClamp]
  split_ifs <;> linarith

/-- Shifting the start of `poseIter` by one composition step. -/
theorem poseIter_shift (start diff : Pose) :
    ∀ k, poseIter (start.comp diff) diff k = poseIter start diff (k + 1)
  | 0 => rfl
  | k + 1 => by
    show (poseIter (start.comp diff) diff k).comp diff =
      (poseIter start diff (k + 1)).comp diff
    rw [poseIter_shift start diff k]

/-- The rollout loop pushes exactly `n` poses. -/
theorem rollout_length (diff : Pose) :
    ∀ (n : ℕ) (last : Pose), (rollout diff n last).length = n
  | 0, _ => rfl
  | n + 1, last => by
    simp [rollout, rollout_length diff n]

/-- The `k`-th pushed pose is the `(k+1)`-st composition of `diff` onto the
start pose. -/
theorem rollout_get (diff : Pose) :
    ∀ (n : ℕ) (last : Pose) (k : ℕ), k < n →
      (rollout diff n last).get? k = some (poseIter last diff (k + 1))
  | 0, _, k, hk => absurd hk (Nat.not_lt_zero k)
  | n + 1, last, 0, _ => by
    simp [rollout, poseIter]
  | n + 1, last, k + 1, hk => by
    rw [rollout, List.get?_cons_succ,
      rollout_get diff n (last.comp diff) k (Nat.lt_of_succ_lt_succ hk),
      poseIter_shift]

/-- If no element strictly improves on the running minimum, the selection
loop keeps its accumulator. -/
theorem selectLoop_no_update (f : Plan → ℚ) :
    ∀ (L : List Plan) (m : ℚ) (s : Plan), (∀ q ∈ L, ¬ f q < m) →
      selectLoop f L m s = (m, s)
  | [], _, _, _ => rfl
  | p :: rest, m, s, h => by
    rw [selectLoop, if_neg (h p (List.mem_cons_self p rest))]
    exact selectLoop_no_update f rest m s fun q hq => h q (List.mem_cons_of_mem p hq)

/-- Characterisation of the selection loop: either nothing beat the initial
minimum and the accumulator survives, or the result is the first
minimal-value element of the list (every element is ≥ it, and every element
strictly before it is strictly above it). -/
theorem selectLoop_spec (f : Plan → ℚ) :
    ∀ (L : List Plan) (m : ℚ) (s : Plan),
      (selectLoop f L m s = (m, s) ∧ ∀ q ∈ L, m ≤ f q) ∨
      (∃ i sel, L.get? i = some sel ∧ selectLoop f L m s = (f sel, sel) ∧
        f sel < m ∧ (∀ q ∈ L, f sel ≤ f q) ∧ ∀ q ∈ L.take i, f sel < f q)
  | [], m, s => by
    left
    exact ⟨rfl, by simp⟩
  | p :: rest, m, s => by
    by_cases hp : f p < m
    · right
      have hloop : selectLoop f (p :: rest) m s = selectLoop f rest (f p) p := by
        rw [selectLoop, if_pos hp]
      rcases selectLoop_spec f rest (f p) p with ⟨heq, hall⟩ |
        ⟨i, sel, hget, heq, hlt, hmin, htake⟩
      · refine ⟨0, p, rfl, hloop.trans heq, hp, ?_, by simp⟩
        intro q hq
        rcases List.mem_cons.mp hq with rfl | hmem
        · exact le_refl _
        · exact hall q hmem
      · refine ⟨i + 1, sel, by simpa using hget, hloop.trans heq,
          lt_trans hlt hp, ?_, ?_⟩
        · intro q hq
          rcases List.mem_cons.mp hq with rfl | hmem
          · exact le_of_lt hlt
          · exact hmin q hmem
        · intro q hq
          rcases List.mem_cons.mp (by simpa using hq) with rfl | hmem
          · exact hlt
          · exact htake q hmem
    · have hloop : selectLoop f (p :: rest) m s = selectLoop f rest m s := by
        rw [selectLoop, if_neg hp]
      rcases selectLoop_spec f rest m s with ⟨heq, hall⟩ |
        ⟨i, sel, hget, heq, hlt, hmin, htake⟩
      · left
        refine ⟨hloop.trans heq, ?_⟩
        intro q hq
        rcases List.mem_cons.mp hq with rfl | hmem
        · exact le_of_not_lt hp
        · exact hall q hmem
      · right
        refine ⟨i + 1, sel, by simpa using hget, hloop.trans heq, hlt, ?_, ?_⟩
        · intro q hq
          rcases List.mem_cons.mp hq with rfl | hmem
          · exact le_of_lt (lt_of_lt_of_le hlt (le_of_not_lt hp))
          · exact hmin q hmem
        · intro q hq
          rcases List.mem_cons.mp (by simpa using hq) with rfl | hmem
          · exact lt_of_lt_of_le hlt (le_of_not_lt hp)
          · exact htake q hmem

/-- `plan_local_path` unfolded onto the selection loop. -/
theorem plan_local_path_eq (self : DwaPlanner) (trig : ℚ → ℚ × ℚ)
    (current_pose : Pose) (current_velocity : Velocity) (maps : LayeredGridMap) :
    self.plan_local_path trig current_pose current_velocity maps =
      { (selectLoop (self.totalCost maps)
          (self.candidatePlans trig current_pose current_velocity) fMAX Plan.default).2 with
        cost := (selectLoop (self.totalCost maps)
          (self.candidatePlans trig current_pose current_velocity) fMAX Plan.default).1 } :=
  rfl

/-- A cell returned by a position lookup is one of the map's cells. -/
theorem cell_by_position_mem (m : GridMap) (p : Position) (c : Cell)
    (h : m.cell_by_position p = some c) : c ∈ m.cells := by
  rw [GridMap.cell_by_position] at h
  rcases hidx : m.position_to_indices p with _ | ⟨col, row⟩ <;> rw [hidx] at h
  · exact absurd h (by simp)
  · exact List.get?_mem h

/-- A disqualifying position anywhere in the list makes the accumulation
return the sentinel, whatever has been accumulated so far. -/
theorem accumulateFrom_bad (map : GridMap) :
    ∀ (l : List Position) (acc : ℚ), (∃ p ∈ l, isDisqualifying map p = true) →
      accumulateFrom map acc l = fMAX
  | [], _, h => by simp at h
  | p :: rest, acc, h => by
    rw [accumulateFrom]
    rcases hcell : map.cell_by_position p with _ | c
    · rfl
    · rcases c with _ | _ | v
      · rfl
      · rfl
      · show accumulateFrom map (acc + (v : ℚ)) rest = fMAX
        rcases h with ⟨q, hq, hbad⟩
        rcases List.mem_cons.mp hq with rfl | hmem
        · simp [isDisqualifying, hcell] at hbad
        · exact accumulateFrom_bad map rest (acc + (v : ℚ)) ⟨q, hmem, hbad⟩

/-- With no disqualifying position, the accumulation adds the cells' stored
values onto the accumulator. -/
theorem accumulateFrom_good (map : GridMap) :
    ∀ (l : List Position) (acc : ℚ), (∀ p ∈ l, isDisqualifying map p = false) →
      accumulateFrom map acc l = acc + (l.map (valueAt map)).sum
  | [], acc, _ => by simp [accumulateFrom]
  | p :: rest, acc, h => by
    have hp := h p (List.mem_cons_self p rest)
    rw [accumulateFrom]
    rcases hcell : map.cell_by_position p with _ | c
    · simp [isDisqualifying, hcell] at hp
    · rcases c with _ | _ | v
      · simp [isDisqualifying, hcell] at hp
      · simp [isDisqualifying, hcell] at hp
      · show accumulateFrom map (acc + (v : ℚ)) rest = _
        rw [accumulateFrom_good map rest (acc + (v : ℚ))
          fun q hq => h q (List.mem_cons_of_mem p hq)]
        simp only [List.map_cons, List.sum_cons, valueAt, hcell]
        ring

/-- The accumulation never goes below a nonnegative accumulator's floor. -/
theorem accumulateFrom_nonneg (map : GridMap) :
    ∀ (l : List Position) (acc : ℚ), 0 ≤ acc → 0 ≤ accumulateFrom map acc l
  | [], _, h => h
  | p :: rest, acc, h => by
    rw [accumulateFrom]
    rcases hcell : map.cell_by_position p with _ | c
    · exact le_of_lt fMAX_pos
    · rcases c with _ | _ | v
      · exact le_of_lt fMAX_pos
      · exact le_of_lt fMAX_pos
      · exact accumulateFrom_nonneg map rest (acc + (v : ℚ))
          (add_nonneg h (Nat.cast_nonneg v))

/-- The per-layer raw cost is never negative. -/
theorem accumulate_nonneg (map : GridMap) (l : List Position) :
    0 ≤ accumulate_values_by_positions map l :=
  accumulateFrom_nonneg map l 0 (le_refl 0)

/-- Stored values are nonnegative when read back. -/
theorem valueAt_nonneg (map : GridMap) (p : Position) : 0 ≤ valueAt map p := by
  rw [valueAt]
  rcases hcell : map.cell_by_position p with _ | c
  · exact le_refl 0
  · rcases c with _ | _ | v
    · exact le_refl 0
    · exact le_refl 0
    · exact Nat.cast_nonneg v

/-- On a map whose stored values are `u8` (≤ 255), every read-back value is
at most 255. -/
theorem valueAt_le (map : GridMap)
    (hv : ∀ v : ℕ, Cell.value v ∈ map.cells → v ≤ 255) (p : Position) :
    valueAt map p ≤ 255 := by
  rw [valueAt]
  rcases hcell : map.cell_by_position p with _ | c
  · norm_num
  · rcases c with _ | _ | v
    · norm_num
    · norm_num
    · show (v : ℚ) ≤ 255
      exact_mod_cast hv v (cell_by_position_mem map p _ hcell)

/-- The summed read-back values of a `u8` map are at most 255 per position. -/
theorem sum_valueAt_le (map : GridMap)
    (hv : ∀ v : ℕ, Cell.value v ∈ map.cells → v ≤ 255) :
    ∀ l : List Position, (l.map (valueAt map)).sum ≤ 255 * l.length
  | [] => by simp
  | p :: rest => by
    have h1 := valueAt_le map hv p
    have h2 := sum_valueAt_le map hv rest
    rw [List.map_cons, List.sum_cons, List.length_cons]
    push_cast
    linarith

/-- A fold that only adds terms equals the accumulator plus the sum of the
terms. -/
theorem foldl_add_eq {α : Type} (g : α → ℚ) :
    ∀ (l : List α) (acc : ℚ),
      l.foldl (fun a x => a + g x) acc = acc + (l.map g).sum
  | [], acc => by simp
  | x :: rest, acc => by
    rw [List.foldl_cons, List.map_cons, List.sum_cons,
      foldl_add_eq g rest (acc + g x)]
    ring

/-- `totalCost` as the sum of the weighted per-layer raw costs. -/
theorem totalCost_eq_sum (self : DwaPlanner) (maps : LayeredGridMap) (plan : Plan) :
    self.totalCost maps plan =
      (self.map_name_weight.map fun nw =>
        nw.2 * accumulate_values_by_positions ((maps.layer nw.1).getD emptyGridMap)
          (plan.path.map Pose.toPosition)).sum := by
  have h := foldl_add_eq (fun nw : String × ℚ =>
    nw.2 * accumulate_values_by_positions ((maps.layer nw.1).getD emptyGridMap)
      (plan.path.map Pose.toPosition)) self.map_name_weight 0
  rw [DwaPlanner.totalCost]
  rw [h, zero_add]

/-- With nonnegative weights, the total cost dominates each single weighted
layer term. -/
theorem totalCost_ge_term (self : DwaPlanner) (maps : LayeredGridMap) (plan : Plan)
    (hnn : ∀ nw ∈ self.map_name_weight, 0 ≤ nw.2)
    {name : String} {w : ℚ} (hmem : (name, w) ∈ self.map_name_weight) :
    w * accumulate_values_by_positions ((maps.layer name).getD emptyGridMap)
      (plan.path.map Pose.toPosition) ≤ self.totalCost maps plan := by
  rw [totalCost_eq_sum]
  refine List.single_le_sum ?_ _ (List.mem_map_of_mem _ hmem)
  intro x hx
  rcases List.mem_map.mp hx with ⟨nw, hnw, rfl⟩
  exact mul_nonneg (hnn nw hnw) (accumulate_nonneg _ _)

/-- Doubling every term of a sum doubles it. -/
theorem sum_map_two_mul {α : Type} (g : α → ℚ) :
    ∀ l : List α, (l.map fun x => 2 * g x).sum = 2 * (l.map g).sum
  | [] => by simp
  | x :: rest => by
    rw [List.map_cons, List.sum_cons, List.map_cons, List.sum_cons,
      sum_map_two_mul g rest]
    ring

/-- Doubling every layer weight exactly doubles every candidate's total
cost. -/
theorem totalCost_double (self : DwaPlanner) (maps : LayeredGridMap) (plan : Plan) :
    (doubleWeights self).totalCost maps plan = 2 * self.totalCost maps plan := by
  rw [totalCost_eq_sum, totalCost_eq_sum]
  show ((self.map_name_weight.map fun nw => (nw.1, 2 * nw.2)).map fun nw =>
    nw.2 * accumulate_values_by_positions ((maps.layer nw.1).getD emptyGridMap)
      (plan.path.map Pose.toPosition)).sum = _
  rw [List.map_map]
  have hfun : ((fun nw : String × ℚ =>
      nw.2 * accumulate_values_by_positions ((maps.layer nw.1).getD emptyGridMap)
        (plan.path.map Pose.toPosition)) ∘ fun nw : String × ℚ => (nw.1, 2 * nw.2)) =
      fun nw : String × ℚ =>
        2 * (nw.2 * accumulate_values_by_positions ((maps.layer nw.1).getD emptyGridMap)
          (plan.path.map Pose.toPosition)) := by
    funext nw
    simp [Function.comp]
    ring
  rw [hfun, sum_map_two_mul]

/-- Doubling the weights leaves the candidate plans unchanged (they only
depend on the limits, steps and horizon). -/
theorem candidatePlans_double (self : DwaPlanner) (trig : ℚ → ℚ × ℚ)
    (current_pose : Pose) (current_velocity : Velocity) :
    (doubleWeights self).candidatePlans trig current_pose current_velocity =
      self.candidatePlans trig current_pose current_velocity := rfl

/-- C2: for every grid map holding `u8` values and every position sequence
of representable length, `accumulate_values_by_positions` returns the
`f64::MAX` sentinel exactly when some position is out of the map's bounds or
falls in an `Uninitialized` or `Obstacle` cell; otherwise it returns the sum
of the cells' values. -/
theorem accumulate_values_spec (map : GridMap) (positions : List Position)
    (hu8 : ∀ c ∈ map.cells, cellIsU8 c = true)
    (hlen : (255 : ℚ) * positions.length < fMAX) :
    (accumulate_values_by_positions map positions = fMAX ↔
      ∃ p ∈ positions, isDisqualifying map p = true) ∧
    ((∀ p ∈ positions, isDisqualifying map p = false) →
      accumulate_values_by_positions map positions =
        (positions.map (valueAt map)).sum) := by
  have hv : ∀ v : ℕ, Cell.value v ∈ map.cells → v ≤ 255 := by
    intro v hvmem
    simpa [cellIsU8] using hu8 _ hvmem
  constructor
  · constructor
    · intro heq
      by_contra hno
      push_neg at hno
      have hall : ∀ p ∈ positions, isDisqualifying map p = false := by
        intro p hp
        simpa using hno p hp
      have hsum := accumulateFrom_good map positions 0 hall
      rw [accumulate_values_by_positions, hsum, zero_add] at heq
      have hbound := sum_valueAt_le map hv positions
      rw [heq] at hbound
      linarith
    · intro h
      exact accumulateFrom_bad map positions 0 h
  · intro hall
    rw [accumulate_values_by_positions, accumulateFrom_good map positions 0 hall,
      zero_add]

/-- C2 witness: on the concrete 2 m × 2 m map with one obstacle, two in-value
positions satisfy the hypotheses, and the theorem applies. -/
theorem accumulate_values_spec_witness :
    ((∀ c ∈ mapFreeObs.cells, cellIsU8 c = true) ∧
      (255 : ℚ) * ([(⟨1/2, 1/2⟩ : Position), ⟨3/2, 3/2⟩] : List Position).length < fMAX) ∧
    ((accumulate_values_by_positions mapFreeObs [⟨1/2, 1/2⟩, ⟨3/2, 3/2⟩] = fMAX ↔
      ∃ p ∈ ([(⟨1/2, 1/2⟩ : Position), ⟨3/2, 3/2⟩] : List Position),
        isDisqualifying mapFreeObs p = true) ∧
     ((∀ p ∈ ([(⟨1/2, 1/2⟩ : Position), ⟨3/2, 3/2⟩] : List Position),
        isDisqualifying mapFreeObs p = false) →
      accumulate_values_by_positions mapFreeObs [⟨1/2, 1/2⟩, ⟨3/2, 3/2⟩] =
        (([(⟨1/2, 1/2⟩ : Position), ⟨3/2, 3/2⟩] : List Position).map
          (valueAt mapFreeObs)).sum)) :=
  ⟨⟨by decide, by decide⟩,
    accumulate_values_spec mapFreeObs [⟨1/2, 1/2⟩, ⟨3/2, 3/2⟩] (by decide) (by decide)⟩

/-- C3 counterexample: with the single layer "a" weighted 1/2 and every
candidate disqualified (every predicted position lies outside the map), the
planner does not return the default stall plan: the selected velocity is
nonzero and the reported cost is `fMAX/2`, not the `f64::MAX` sentinel. -/
theorem all_disqualified_plan_not_default :
    (∀ q ∈ plannerHalf.candidatePlans trigZero poseFar v0A,
      ∃ p ∈ q.path.map Pose.toPosition, isDisqualifying mapA p = true) ∧
    (plannerHalf.plan_local_path trigZero poseFar v0A mapsA).velocity ≠ ⟨0, 0⟩ ∧
    (plannerHalf.plan_local_path trigZero poseFar v0A mapsA).cost ≠ fMAX := by
  refine ⟨by decide, by decide, by decide⟩

/-- C3 (amended): on every input where each candidate's total weighted cost
is at least `f64::MAX` — in particular all-disqualified inputs whose
weighting keeps the disqualified total at or above the sentinel, such as a
single layer of weight 1 — `plan_local_path` returns the zero-velocity
default plan with cost `f64::MAX`. -/
theorem plan_local_path_stall (self : DwaPlanner) (trig : ℚ → ℚ × ℚ)
    (current_pose : Pose) (current_velocity : Velocity) (maps : LayeredGridMap)
    (h : ∀ q ∈ self.candidatePlans trig current_pose current_velocity,
      fMAX ≤ self.totalCost maps q) :
    (self.plan_local_path trig current_pose current_velocity maps).velocity = ⟨0, 0⟩ ∧
    (self.plan_local_path trig current_pose current_velocity maps).cost = fMAX := by
  have hsel := selectLoop_no_update (self.totalCost maps)
    (self.candidatePlans trig current_pose current_velocity) fMAX Plan.default
    fun q hq => not_lt.mpr (h q hq)
  rw [plan_local_path_eq, hsel]
  exact ⟨rfl, rfl⟩

/-- C3 witness: with weight 1 on layer "a" and all candidates out of bounds,
the hypothesis holds and the planner stalls. -/
theorem plan_local_path_stall_witness :
    (∀ q ∈ plannerOne.candidatePlans trigZero poseFar v0A,
      fMAX ≤ plannerOne.totalCost mapsA q) ∧
    ((plannerOne.plan_local_path trigZero poseFar v0A mapsA).velocity = ⟨0, 0⟩ ∧
     (plannerOne.plan_local_path trigZero poseFar v0A mapsA).cost = fMAX) :=
  ⟨by decide, plan_local_path_stall plannerOne trigZero poseFar v0A mapsA (by decide)⟩

/-- Summing a constant over a list. -/
theorem sum_map_const_nat {α : Type} (c : ℕ) :
    ∀ l : List α, (l.map fun _ => c).sum = l.length * c
  | [] => by simp
  | x :: rest => by
    rw [List.map_cons, List.sum_cons, List.length_cons, sum_map_const_nat c rest]
    ring

/-- A flatMap over a range whose pieces all have the same length. -/
theorem flatMap_range_length {β : Type} (g : ℕ → List β) (n c : ℕ)
    (h : ∀ i, (g i).length = c) : ((List.range n).flatMap g).length = n * c := by
  rw [List.length_flatMap,
    show (List.length ∘ g) = fun _ : ℕ => c from funext fun i => h i,
    sum_map_const_nat, List.length_range]

/-- C6: for N ≥ 1, `sample_velocity` returns exactly `(N+1)^2 + (N+1)`
candidates — the count does not depend on clamping — and in particular never
fewer than `N+1`. -/
theorem sample_velocity_count (self : DwaPlanner) (current_velocity : Velocity)
    (hN : 1 ≤ self.num_vel_sample) :
    (self.sample_velocity current_velocity).length =
      (self.num_vel_sample + 1) ^ 2 + (self.num_vel_sample + 1) ∧
    self.num_vel_sample + 1 ≤ (self.sample_velocity current_velocity).length := by
  have hlen : (self.sample_velocity current_velocity).length =
      (self.num_vel_sample + 1) * (self.num_vel_sample + 2) := by
    simp only [DwaPlanner.sample_velocity]
    refine flatMap_range_length _ _ _ ?_
    intro i
    simp only [List.length_append, List.length_map, List.length_range,
      List.length_cons, List.length_nil]
  constructor
  · rw [hlen]
    ring
  · rw [hlen]
    nlinarith

/-- C6 witness: the concrete planner with N = 1 yields 4 + 2 = 6
candidates. -/
theorem sample_velocity_count_witness :
    1 ≤ plannerOne.num_vel_sample ∧
    ((plannerOne.sample_velocity v0A).length =
      (plannerOne.num_vel_sample + 1) ^ 2 + (plannerOne.num_vel_sample + 1) ∧
     plannerOne.num_vel_sample + 1 ≤ (plannerOne.sample_velocity v0A).length) :=
  ⟨by decide, sample_velocity_count plannerOne v0A (by decide)⟩

/-- C7: for a positive controller step, `forward_simulation` returns exactly
`⌊simulation_duration / controller_dt⌋` poses (saturated at 0 from below, as
the Rust float-to-usize cast does), and the k-th pose is the (k+1)-st SE(2)
composition of the per-step delta pose Δ = ((v.x·dt, 0), v.θ·dt) onto the
start pose — so the start pose itself is not part of the sequence and
`path[0]` is the pose one dt ahead. -/
theorem forward_simulation_spec (self : DwaPlanner) (trig : ℚ → ℚ × ℚ)
    (current_pose : Pose) (target_velocity : Velocity)
    (hdt : 0 < self.controller_dt) :
    (self.forward_simulation trig current_pose target_velocity).length =
      ((self.simulation_duration / self.controller_dt).floor).toNat ∧
    ∀ k < ((self.simulation_duration / self.controller_dt).floor).toNat,
      (self.forward_simulation trig current_pose target_velocity).get? k =
        some (poseIter current_pose
          (velocity_to_pose trig target_velocity self.controller_dt) (k + 1)) := by
  constructor
  · exact rollout_length _ _ _
  · intro k hk
    exact rollout_get _ _ _ k hk

/-- C7 witness: with dt = 1 s and horizon 3 s the rollout has 3 poses, each
one composition further along. -/
theorem forward_simulation_spec_witness :
    0 < plannerSim.controller_dt ∧
    ((plannerSim.forward_simulation trigZero poseMid v0A).length =
      ((plannerSim.simulation_duration / plannerSim.controller_dt).floor).toNat ∧
     ∀ k < ((plannerSim.simulation_duration / plannerSim.controller_dt).floor).toNat,
      (plannerSim.forward_simulation trigZero poseMid v0A).get? k =
        some (poseIter poseMid
          (velocity_to_pose trigZero v0A plannerSim.controller_dt) (k + 1))) :=
  ⟨by decide, forward_simulation_spec plannerSim trigZero poseMid v0A (by decide)⟩

/-- C9: `plan_local_path` is a pure function of its inputs — the embedding
is a total function with no state, and identical poses, velocities and
layered maps give identical plans. -/
theorem plan_local_path_deterministic (self : DwaPlanner) (trig : ℚ → ℚ × ℚ)
    (p1 p2 : Pose) (v1 v2 : Velocity) (m1 m2 : LayeredGridMap)
    (hp : p1 = p2) (hv : v1 = v2) (hm : m1 = m2) :
    self.plan_local_path trig p1 v1 m1 = self.plan_local_path trig p2 v2 m2 := by
  rw [hp, hv, hm]

/-- C9 witness: two calls at the same concrete inputs coincide. -/
theorem plan_local_path_deterministic_witness :
    (poseFar = poseFar ∧ v0A = v0A ∧ mapsA = mapsA) ∧
    plannerOne.plan_local_path trigZero poseFar v0A mapsA =
      plannerOne.plan_local_path trigZero poseFar v0A mapsA :=
  ⟨⟨rfl, rfl, rfl⟩,
    plan_local_path_deterministic plannerOne trigZero poseFar poseFar v0A v0A
      mapsA mapsA rfl rfl rfl⟩

/-- C10: when no candidate's total cost is strictly below the `f64::MAX`
sentinel, the plan returned is the default plan with only its cost field
overwritten: its path is empty, so reading `path[0]` finds no element. -/
theorem stall_plan_empty_path (self : DwaPlanner) (trig : ℚ → ℚ × ℚ)
    (current_pose : Pose) (current_velocity : Velocity) (maps : LayeredGridMap)
    (h : ∀ q ∈ self.candidatePlans trig current_pose current_velocity,
      ¬ self.totalCost maps q < fMAX) :
    (self.plan_local_path trig current_pose current_velocity maps).path = [] ∧
    (self.plan_local_path trig current_pose current_velocity maps).path.head? = none := by
  have hsel := selectLoop_no_update (self.totalCost maps)
    (self.candidatePlans trig current_pose current_velocity) fMAX Plan.default h
  rw [plan_local_path_eq, hsel]
  exact ⟨rfl, rfl⟩

/-- C10 witness: on the all-out-of-bounds input every candidate sits at the
sentinel, and the returned path is empty. -/
theorem stall_plan_empty_path_witness :
    (∀ q ∈ plannerOne.candidatePlans trigZero poseFar v0A,
      ¬ plannerOne.totalCost mapsA q < fMAX) ∧
    ((plannerOne.plan_local_path trigZero poseFar v0A mapsA).path = [] ∧
     (plannerOne.plan_local_path trigZero poseFar v0A mapsA).path.head? = none) :=
  ⟨by decide, stall_plan_empty_path plannerOne trigZero poseFar v0A mapsA (by decide)⟩

/-- C1 counterexample: on an input where every candidate's total cost equals
the `f64::MAX` sentinel, all candidates are tied minimal, yet the planner
returns the default plan — which is none of the candidates, since its path
is empty while every candidate's path has a pose. -/
theorem plan_local_path_not_always_candidate :
    (∀ q ∈ plannerOne.candidatePlans trigZero poseFar v0A,
      plannerOne.totalCost mapsA q = fMAX) ∧
    (plannerOne.plan_local_path trigZero poseFar v0A mapsA).path = [] ∧
    (∀ q ∈ plannerOne.candidatePlans trigZero poseFar v0A, q.path ≠ []) :=
  ⟨by decide, by decide, by decide⟩

/-- C1 (amended): whenever at least one candidate's total cost is strictly
below the `f64::MAX` sentinel, `plan_local_path` returns the first candidate
of minimal total cost in sampling order: its velocity and path are that
candidate's, the reported cost is that candidate's total cost, no candidate
costs less, and every earlier candidate costs strictly more. -/
theorem plan_local_path_selects_first_min (self : DwaPlanner) (trig : ℚ → ℚ × ℚ)
    (current_pose : Pose) (current_velocity : Velocity) (maps : LayeredGridMap)
    (h : ∃ q ∈ self.candidatePlans trig current_pose current_velocity,
      self.totalCost maps q < fMAX) :
    ∃ i sel,
      (self.candidatePlans trig current_pose current_velocity).get? i = some sel ∧
      (self.plan_local_path trig current_pose current_velocity maps).velocity =
        sel.velocity ∧
      (self.plan_local_path trig current_pose current_velocity maps).path = sel.path ∧
      (self.plan_local_path trig current_pose current_velocity maps).cost =
        self.totalCost maps sel ∧
      (∀ q ∈ self.candidatePlans trig current_pose current_velocity,
        self.totalCost maps sel ≤ self.totalCost maps q) ∧
      (∀ q ∈ (self.candidatePlans trig current_pose current_velocity).take i,
        self.totalCost maps sel < self.totalCost maps q) := by
  rcases selectLoop_spec (self.totalCost maps)
    (self.candidatePlans trig current_pose current_velocity) fMAX Plan.default with
    ⟨_, hall⟩ | ⟨i, sel, hget, heq, _, hmin, htake⟩
  · rcases h with ⟨q, hq, hqlt⟩
    exact absurd hqlt (not_lt.mpr (hall q hq))
  · refine ⟨i, sel, hget, ?_, ?_, ?_, hmin, htake⟩ <;>
      rw [plan_local_path_eq, heq]

/-- C1 witness: on the one-obstacle map the stop candidate costs 0 < fMAX,
so a minimal first candidate is returned. -/
theorem plan_local_path_selects_first_min_witness :
    (∃ q ∈ plannerOne.candidatePlans trigZero poseMid v0A,
      plannerOne.totalCost mapsFreeObs q < fMAX) ∧
    (∃ i sel,
      (plannerOne.candidatePlans trigZero poseMid v0A).get? i = some sel ∧
      (plannerOne.plan_local_path trigZero poseMid v0A mapsFreeObs).velocity =
        sel.velocity ∧
      (plannerOne.plan_local_path trigZero poseMid v0A mapsFreeObs).path = sel.path ∧
      (plannerOne.plan_local_path trigZero poseMid v0A mapsFreeObs).cost =
        plannerOne.totalCost mapsFreeObs sel ∧
      (∀ q ∈ plannerOne.candidatePlans trigZero poseMid v0A,
        plannerOne.totalCost mapsFreeObs sel ≤ plannerOne.totalCost mapsFreeObs q) ∧
      (∀ q ∈ (plannerOne.candidatePlans trigZero poseMid v0A).take i,
        plannerOne.totalCost mapsFreeObs sel < plannerOne.totalCost mapsFreeObs q)) :=
  ⟨by decide,
    plan_local_path_selects_first_min plannerOne trigZero poseMid v0A mapsFreeObs
      (by decide)⟩

/-- C4 counterexample: with an all-Obstacle layer of weight 1/2, every
candidate is disqualified, yet a candidate is selected and its path enters
an Obstacle cell of that layer. -/
theorem selected_plan_enters_obstacle :
    (∃ c ∈ mapObs.cells, c = Cell.obstacle) ∧
    mapsObs.layer "a" = some mapObs ∧
    ∃ q ∈ (plannerHalf.plan_local_path trigZero poseMid v0A mapsObs).path,
      mapObs.cell_by_position q.toPosition = some Cell.obstacle :=
  ⟨by decide, by decide, by decide⟩

/-- C4 (amended): with nonnegative weights, an obstacle layer `name` of
positive weight `w` present in the layered maps, and a returned plan whose
cost is below `w * fMAX`, no pose of the returned path projects into an
Obstacle cell of that layer. -/
theorem selected_plan_avoids_obstacle (self : DwaPlanner) (trig : ℚ → ℚ × ℚ)
    (current_pose : Pose) (current_velocity : Velocity) (maps : LayeredGridMap)
    (name : String) (w : ℚ) (gm : GridMap)
    (hmem : (name, w) ∈ self.map_name_weight)
    (hnn : ∀ nw ∈ self.map_name_weight, 0 ≤ nw.2)
    (hl : maps.layer name = some gm)
    (hc : (self.plan_local_path trig current_pose current_velocity maps).cost <
      w * fMAX) :
    ∀ q ∈ (self.plan_local_path trig current_pose current_velocity maps).path,
      gm.cell_by_position q.toPosition ≠ some Cell.obstacle := by
  rcases selectLoop_spec (self.totalCost maps)
    (self.candidatePlans trig current_pose current_velocity) fMAX Plan.default with
    ⟨heq, _⟩ | ⟨i, sel, hget, heq, hlt, hmin, htake⟩
  · rw [plan_local_path_eq, heq]
    intro q hq
    exact absurd hq (by simp [Plan.default])
  · rw [plan_local_path_eq, heq] at hc ⊢
    intro q hq hobs
    have hq2 : q ∈ sel.path := hq
    have hc2 : self.totalCost maps sel < w * fMAX := hc
    have hglayer : (maps.layer name).getD emptyGridMap = gm := by
      rw [hl]
      rfl
    have hbad : accumulate_values_by_positions gm (sel.path.map Pose.toPosition) =
        fMAX := by
      apply accumulateFrom_bad
      refine ⟨q.toPosition, List.mem_map_of_mem _ hq2, ?_⟩
      simp [isDisqualifying, hobs]
    have hge := totalCost_ge_term self maps sel hnn hmem
    rw [hglayer, hbad] at hge
    linarith

/-- C4 witness: on the one-obstacle map with weight 1 the returned plan has
cost 0 < 1 · fMAX, and indeed none of its poses hits the obstacle. -/
theorem selected_plan_avoids_obstacle_witness :
    ((("a", (1 : ℚ)) ∈ plannerOne.map_name_weight) ∧
     (∀ nw ∈ plannerOne.map_name_weight, 0 ≤ nw.2) ∧
     mapsFreeObs.layer "a" = some mapFreeObs ∧
     (plannerOne.plan_local_path trigZero poseMid v0A mapsFreeObs).cost <
       1 * fMAX) ∧
    ∀ q ∈ (plannerOne.plan_local_path trigZero poseMid v0A mapsFreeObs).path,
      mapFreeObs.cell_by_position q.toPosition ≠ some Cell.obstacle :=
  ⟨⟨by decide, by decide, by decide, by decide⟩,
    selected_plan_avoids_obstacle plannerOne trigZero poseMid v0A mapsFreeObs
      "a" 1 mapFreeObs (by decide) (by decide) (by decide) (by decide)⟩

/-- A grid point `lo + ((hi - lo)/n)·k` with `k ≤ n` stays inside
`[lo, hi]`. -/
theorem grid_point_bounds (lo hi : ℚ) (n : ℕ) (hn : 1 ≤ n) (hlohi : lo ≤ hi)
    (k : ℕ) (hk : k < n + 1) :
    lo ≤ lo + (hi - lo) / (n : ℚ) * k ∧ lo + (hi - lo) / (n : ℚ) * k ≤ hi := by
  have hne : ((n : ℚ)) ≠ 0 := Nat.cast_ne_zero.mpr (by omega)
  have hd : 0 ≤ (hi - lo) / (n : ℚ) := div_nonneg (by linarith) (Nat.cast_nonneg n)
  have hkn : (k : ℚ) ≤ (n : ℚ) := by exact_mod_cast Nat.lt_succ_iff.mp hk
  constructor
  · nlinarith [mul_nonneg hd (Nat.cast_nonneg k)]
  · have h1 : (hi - lo) / (n : ℚ) * (k : ℚ) ≤ (hi - lo) / (n : ℚ) * (n : ℚ) :=
      mul_le_mul_of_nonneg_left hkn hd
    rw [div_mul_cancel₀ _ hne] at h1
    linarith

/-- A sampled axis value lies inside the velocity box and inside the clamped
one-step acceleration reach. -/
theorem axis_sample_bounds (lo hi a b : ℚ) (n : ℕ) (hn : 1 ≤ n)
    (hvlh : lo ≤ hi) (hab : a ≤ b) (k : ℕ) (hk : k < n + 1) :
    lo ≤ rustClamp a lo hi + (rustClamp b lo hi - rustClamp a lo hi) / (n : ℚ) * k ∧
    rustClamp a lo hi + (rustClamp b lo hi - rustClamp a lo hi) / (n : ℚ) * k ≤ hi ∧
    rustClamp a lo hi ≤
      rustClamp a lo hi + (rustClamp b lo hi - rustClamp a lo hi) / (n : ℚ) * k ∧
    rustClamp a lo hi + (rustClamp b lo hi - rustClamp a lo hi) / (n : ℚ) * k ≤
      rustClamp b lo hi := by
  have hmono := rustClamp_mono a b lo hi hvlh hab
  have hma := rustClamp_mem a lo hi hvlh
  have hmb := rustClamp_mem b lo hi hvlh
  have hg := grid_point_bounds (rustClamp a lo hi) (rustClamp b lo hi) n hn hmono k hk
  exact ⟨le_trans hma.1 hg.1, le_trans hg.2 hmb.2, hg.1, hg.2⟩

/-- C5 counterexample: the pinned limits are well-formed (min ≤ max
componentwise), yet `sample_velocity` emits a stop-and-turn sample whose x
component 0 is strictly below `min_velocity.x = 1` — outside the velocity
bounds and the one-step acceleration reach `[1, 1]`. -/
theorem sample_velocity_not_admissible :
    (limitsPinned.min_velocity.x ≤ limitsPinned.max_velocity.x ∧
     limitsPinned.min_velocity.theta ≤ limitsPinned.max_velocity.theta ∧
     limitsPinned.min_accel.x ≤ limitsPinned.max_accel.x ∧
     limitsPinned.min_accel.theta ≤ limitsPinned.max_accel.theta) ∧
    ∃ v ∈ plannerOne.sample_velocity v0A,
      v.x < plannerOne.limits.min_velocity.x :=
  ⟨by decide, by decide⟩

/-- C5 (amended): with well-formed limits, nonnegative dt and N ≥ 1, every
sampled velocity's θ component lies in the velocity bounds and in the
clamped one-step θ acceleration reach, and its x component is either exactly
0 (the unconditional stop-and-turn samples, which may violate the bounds) or
likewise admissible on the x axis. -/
theorem sample_velocity_admissible (self : DwaPlanner) (v0 : Velocity)
    (hvx : self.limits.min_velocity.x ≤ self.limits.max_velocity.x)
    (hvt : self.limits.min_velocity.theta ≤ self.limits.max_velocity.theta)
    (hax : self.limits.min_accel.x ≤ self.limits.max_accel.x)
    (hat : self.limits.min_accel.theta ≤ self.limits.max_accel.theta)
    (hdt : 0 ≤ self.controller_dt) (hN : 1 ≤ self.num_vel_sample) :
    ∀ v ∈ self.sample_velocity v0,
      (self.limits.min_velocity.theta ≤ v.theta ∧
       v.theta ≤ self.limits.max_velocity.theta ∧
       rustClamp (v0.theta + self.limits.min_accel.theta * self.controller_dt)
         self.limits.min_velocity.theta self.limits.max_velocity.theta ≤ v.theta ∧
       v.theta ≤ rustClamp (v0.theta + self.limits.max_accel.theta * self.controller_dt)
         self.limits.min_velocity.theta self.limits.max_velocity.theta) ∧
      (v.x = 0 ∨
       (self.limits.min_velocity.x ≤ v.x ∧
        v.x ≤ self.limits.max_velocity.x ∧
        rustClamp (v0.x + self.limits.min_accel.x * self.controller_dt)
          self.limits.min_velocity.x self.limits.max_velocity.x ≤ v.x ∧
        v.x ≤ rustClamp (v0.x + self.limits.max_accel.x * self.controller_dt)
          self.limits.min_velocity.x self.limits.max_velocity.x)) := by
  intro v hv
  simp only [DwaPlanner.sample_velocity, List.mem_flatMap, List.mem_append,
    List.mem_map, List.mem_range, List.mem_singleton] at hv
  have habx : v0.x + self.limits.min_accel.x * self.controller_dt ≤
      v0.x + self.limits.max_accel.x * self.controller_dt := by
    have := mul_le_mul_of_nonneg_right hax hdt
    linarith
  have habt : v0.theta + self.limits.min_accel.theta * self.controller_dt ≤
      v0.theta + self.limits.max_accel.theta * self.controller_dt := by
    have := mul_le_mul_of_nonneg_right hat hdt
    linarith
  obtain ⟨i, hi, hcase⟩ := hv
  have ht := axis_sample_bounds self.limits.min_velocity.theta
    self.limits.max_velocity.theta
    (v0.theta + self.limits.min_accel.theta * self.controller_dt)
    (v0.theta + self.limits.max_accel.theta * self.controller_dt)
    self.num_vel_sample hN hvt habt i hi
  rcases hcase with ⟨j, hj, rfl⟩ | rfl
  · have hx := axis_sample_bounds self.limits.min_velocity.x
      self.limits.max_velocity.x
      (v0.x + self.limits.min_accel.x * self.controller_dt)
      (v0.x + self.limits.max_accel.x * self.controller_dt)
      self.num_vel_sample hN hvx habx j hj
    exact ⟨⟨ht.1, ht.2.1, ht.2.2.1, ht.2.2.2⟩,
      Or.inr ⟨hx.1, hx.2.1, hx.2.2.1, hx.2.2.2⟩⟩
  · exact ⟨⟨ht.1, ht.2.1, ht.2.2.1, ht.2.2.2⟩, Or.inl rfl⟩

/-- C5 witness: the concrete pinned-limit planner satisfies the hypotheses
and the amended admissibility holds for its six samples. -/
theorem sample_velocity_admissible_witness :
    (plannerOne.limits.min_velocity.x ≤ plannerOne.limits.max_velocity.x ∧
     plannerOne.limits.min_velocity.theta ≤ plannerOne.limits.max_velocity.theta ∧
     plannerOne.limits.min_accel.x ≤ plannerOne.limits.max_accel.x ∧
     plannerOne.limits.min_accel.theta ≤ plannerOne.limits.max_accel.theta ∧
     0 ≤ plannerOne.controller_dt ∧ 1 ≤ plannerOne.num_vel_sample) ∧
    ∀ v ∈ plannerOne.sample_velocity v0A,
      (plannerOne.limits.min_velocity.theta ≤ v.theta ∧
       v.theta ≤ plannerOne.limits.max_velocity.theta ∧
       rustClamp (v0A.theta + plannerOne.limits.min_accel.theta * plannerOne.controller_dt)
         plannerOne.limits.min_velocity.theta plannerOne.limits.max_velocity.theta ≤
         v.theta ∧
       v.theta ≤
        rustClamp (v0A.theta + plannerOne.limits.max_accel.theta * plannerOne.controller_dt)
         plannerOne.limits.min_velocity.theta plannerOne.limits.max_velocity.theta) ∧
      (v.x = 0 ∨
       (plannerOne.limits.min_velocity.x ≤ v.x ∧
        v.x ≤ plannerOne.limits.max_velocity.x ∧
        rustClamp (v0A.x + plannerOne.limits.min_accel.x * plannerOne.controller_dt)
          plannerOne.limits.min_velocity.x plannerOne.limits.max_velocity.x ≤ v.x ∧
        v.x ≤ rustClamp (v0A.x + plannerOne.limits.max_accel.x * plannerOne.controller_dt)
          plannerOne.limits.min_velocity.x plannerOne.limits.max_velocity.x)) :=
  ⟨⟨by decide, by decide, by decide, by decide, by decide, by decide⟩,
    sample_velocity_admissible plannerOne v0A (by decide) (by decide) (by decide)
      (by decide) (by decide) (by decide)⟩

/-- C8 counterexample: doubling the weight 1/2 into 1 changes the selection:
with every candidate disqualified the half-weight planner selects a moving
candidate, while the doubled planner returns the zero-velocity default. -/
theorem double_weights_changes_selection :
    doubleWeights plannerHalf = plannerOne ∧
    (plannerHalf.plan_local_path trigZero poseFar v0A mapsA).velocity.x = 1 ∧
    ((doubleWeights plannerHalf).plan_local_path trigZero poseFar v0A mapsA).velocity.x
      = 0 :=
  ⟨by decide, by decide, by decide⟩

/-- C8 (amended): whenever some candidate's doubled total cost is still
strictly below the `f64::MAX` sentinel, the planner with doubled weights
selects the same candidate — same velocity and path — and reports exactly
twice the cost. -/
theorem double_weights_selection_invariant (self : DwaPlanner) (trig : ℚ → ℚ × ℚ)
    (current_pose : Pose) (current_velocity : Velocity) (maps : LayeredGridMap)
    (h : ∃ q ∈ self.candidatePlans trig current_pose current_velocity,
      2 * self.totalCost maps q < fMAX) :
    ((doubleWeights self).plan_local_path trig current_pose current_velocity maps).velocity
      = (self.plan_local_path trig current_pose current_velocity maps).velocity ∧
    ((doubleWeights self).plan_local_path trig current_pose current_velocity maps).path
      = (self.plan_local_path trig current_pose current_velocity maps).path ∧
    ((doubleWeights self).plan_local_path trig current_pose current_velocity maps).cost
      = 2 * (self.plan_local_path trig current_pose current_velocity maps).cost := by
  rcases h with ⟨q0, hq0, hq0lt2⟩
  have hq0lt1 : self.totalCost maps q0 < fMAX := by
    rcases le_or_lt 0 (self.totalCost maps q0) with hge | hneg
    · linarith
    · exact lt_trans hneg fMAX_pos
  rcases selectLoop_spec (self.totalCost maps)
    (self.candidatePlans trig current_pose current_velocity) fMAX Plan.default with
    ⟨_, hall1⟩ | ⟨i1, sel1, hget1, heq1, hlt1, hmin1, htake1⟩
  · exact absurd hq0lt1 (not_lt.mpr (hall1 q0 hq0))
  rcases selectLoop_spec ((doubleWeights self).totalCost maps)
    (self.candidatePlans trig current_pose current_velocity) fMAX Plan.default with
    ⟨_, hall2⟩ | ⟨i2, sel2, hget2, heq2, hlt2, hmin2, htake2⟩
  · have hx := hall2 q0 hq0
    rw [totalCost_double] at hx
    linarith
  have hmin2x : ∀ q ∈ self.candidatePlans trig current_pose current_velocity,
      self.totalCost maps sel2 ≤ self.totalCost maps q := by
    intro q hq
    have hx := hmin2 q hq
    rw [totalCost_double, totalCost_double] at hx
    linarith
  have htake2x : ∀ q ∈ (self.candidatePlans trig current_pose current_velocity).take i2,
      self.totalCost maps sel2 < self.totalCost maps q := by
    intro q hq
    have hx := htake2 q hq
    rw [totalCost_double, totalCost_double] at hx
    linarith
  have hs12 : self.totalCost maps sel1 = self.totalCost maps sel2 :=
    le_antisymm (hmin1 sel2 (List.get?_mem hget2)) (hmin2x sel1 (List.get?_mem hget1))
  have hieq : i1 = i2 := by
    rcases lt_trichotomy i1 i2 with hlt | heqi | hgt
    · have hmem : sel1 ∈ (self.candidatePlans trig current_pose current_velocity).take i2 := by
        have := List.get?_take hlt (l := self.candidatePlans trig current_pose current_velocity)
        exact List.get?_mem (this ▸ hget1)
      have := htake2x sel1 hmem
      linarith [hs12]
    · exact heqi
    · have hmem : sel2 ∈ (self.candidatePlans trig current_pose current_velocity).take i1 := by
        have := List.get?_take hgt (l := self.candidatePlans trig current_pose current_velocity)
        exact List.get?_mem (this ▸ hget2)
      have := htake1 sel2 hmem
      linarith [hs12]
  have hsel : sel1 = sel2 := by
    rw [hieq] at hget1
    rw [hget1] at hget2
    exact Option.some.inj hget2
  subst hsel
  rw [plan_local_path_eq, plan_local_path_eq, candidatePlans_double, heq1, heq2]
  refine ⟨rfl, rfl, ?_⟩
  show (doubleWeights self).totalCost maps sel1 = 2 * self.totalCost maps sel1
  exact totalCost_double self maps sel1

/-- C8 witness: on the one-obstacle map the stop candidate's doubled cost is
0 < fMAX, and doubling the 1/2-weight planner preserves its selection while
doubling the reported cost. -/
theorem double_weights_selection_invariant_witness :
    (∃ q ∈ plannerHalf.candidatePlans trigZero poseMid v0A,
      2 * plannerHalf.totalCost mapsFreeObs q < fMAX) ∧
    (((doubleWeights plannerHalf).plan_local_path trigZero poseMid v0A mapsFreeObs).velocity
      = (plannerHalf.plan_local_path trigZero poseMid v0A mapsFreeObs).velocity ∧
     ((doubleWeights plannerHalf).plan_local_path trigZero poseMid v0A mapsFreeObs).path
      = (plannerHalf.plan_local_path trigZero poseMid v0A mapsFreeObs).path ∧
     ((doubleWeights plannerHalf).plan_local_path trigZero poseMid v0A mapsFreeObs).cost
      = 2 * (plannerHalf.plan_local_path trigZero poseMid v0A mapsFreeObs).cost) :=
  ⟨by decide,
    double_weights_selection_invariant plannerHalf trigZero poseMid v0A mapsFreeObs
      (by decide)⟩

end OpenrrNav
